import Mathlib

/-!
Verification of the promo-code validation engine of the orderfoodonline
repository (package `internal/promovalidator`): the parallel validator of
`part_004` (`parallelValidator`, `foundInFile`, `isAlnum`), the bounded LRU
cache of `part_005`, and the streaming validator of
`internal/promovalidator/validator.go`.

Go strings are modelled as lists of runes (`List Char`); Go `len` on a string
is the UTF-8 byte length, modelled by `byteLen`.  File IO is modelled by an
environment `Sources : String → Option (List GoStr)` mapping a path to the
line list of its (decompressed) content; `none` models a file that is
missing, unreadable, or whose compressed stream is corrupt — every case in
which the Go code's `os.Open`/`gzip.NewReader`/scan fails.  The Unicode
tables behind Go's `unicode.IsLetter`/`unicode.IsNumber` live outside the
repository, so the tokenizer's character predicate is a parameter
`isTok : Char → Bool` of the scanning functions; concrete evaluations
instantiate it with a predicate that agrees with Go on the characters
involved.
-/

namespace OrderFoodOnline

/-- A Go string viewed as its sequence of runes. -/
abbrev GoStr := List Char

/-- Go `len(s)` on a string: the UTF-8 byte length. -/
def byteLen (s : GoStr) : Nat := s.foldr (fun c n => c.utf8Size + n) 0

/-- `isAlnum`'s per-rune test from the source: ASCII letter or ASCII digit
(`ch >= 'A' && ch <= 'Z' || ch >= 'a' && ch <= 'z' || ch >= '0' && ch <= '9'`). -/
def isAlnumChar (c : Char) : Bool :=
  ('A' ≤ c && c ≤ 'Z') || ('a' ≤ c && c ≤ 'z') || ('0' ≤ c && c ≤ '9')

/-- `func isAlnum(s string) bool` from the source: every rune of `s` is an
ASCII letter or digit. -/
def isAlnum (s : GoStr) : Bool := s.all isAlnumChar

/-- Go's `unicode.IsSpace`: the Unicode White_Space property
(U+0009–U+000D, U+0020, U+0085, U+00A0, U+1680, U+2000–U+200A, U+2028,
U+2029, U+202F, U+205F, U+3000). -/
def goIsSpace (c : Char) : Bool :=
  (0x09 ≤ c.val && c.val ≤ 0x0D) || c.val == 0x20 || c.val == 0x85 ||
  c.val == 0xA0 || c.val == 0x1680 || (0x2000 ≤ c.val && c.val ≤ 0x200A) ||
  c.val == 0x2028 || c.val == 0x2029 || c.val == 0x202F || c.val == 0x205F ||
  c.val == 0x3000

/-- Go `strings.TrimSpace`: drop leading and trailing White_Space runes. -/
def trimSpace (s : GoStr) : GoStr :=
  ((s.dropWhile goIsSpace).reverse.dropWhile goIsSpace).reverse

/-- Accumulator pass of `fieldsFunc`: `cur` is the current in-progress field,
held in reverse. -/
def fieldsFuncAux (p : Char → Bool) : GoStr → GoStr → List GoStr
  | cur, [] => if cur.isEmpty then [] else [cur.reverse]
  | cur, c :: rest =>
    if p c then
      if cur.isEmpty then fieldsFuncAux p [] rest
      else cur.reverse :: fieldsFuncAux p [] rest
    else fieldsFuncAux p (c :: cur) rest

/-- Go `strings.FieldsFunc(s, p)`: splits `s` at every rune satisfying `p`
into its maximal runs of runes not satisfying `p`. -/
def fieldsFunc (p : Char → Bool) (s : GoStr) : List GoStr := fieldsFuncAux p [] s

/-- Per-line token list of the scanners: split on every rune that is neither
a letter nor a number, where `isTok` models
`unicode.IsLetter(r) || unicode.IsNumber(r)`. -/
def lineTokens (isTok : Char → Bool) (line : GoStr) : List GoStr :=
  fieldsFunc (fun c => !isTok c) line

/-- The token-match test of `foundInFile` in `part_004`:
`len(w) == len(code) && w == code` (byte lengths; exact, case-sensitive
string equality). -/
def tokenMatches (w code : GoStr) : Bool :=
  byteLen w == byteLen code && w == code

/-- The source environment: a path resolves to the line list of its
(decompressed) content, or to `none` when the file is missing, unreadable,
or its compressed stream is corrupt. -/
def Sources := String → Option (List GoStr)

/-- `bufio.Scanner` buffer cap from the source: `const maxLine = 1024*1024`. -/
def maxLine : Nat := 1024 * 1024

/-- The lines a `bufio.Scanner` with a `maxLine`-byte buffer yields: the
scan stops (with an error the callers absorb) at the first line longer than
the buffer, so only the prefix of lines within the cap is tokenized. -/
def scannedLines (lines : List GoStr) : List GoStr :=
  lines.takeWhile (fun l => byteLen l ≤ maxLine)

/-- `func foundInFile(path, code string) (bool, error)` from `part_004`,
with the file system abstracted by `env`.  A missing/unreadable/corrupt
source is `(false, nil)`; otherwise the scanned lines are tokenized and the
result is whether some token matches.  The error component is `none` at
every return site of the Go function, which this model preserves. -/
def foundInFileE (isTok : Char → Bool) (env : Sources) (path : String)
    (code : GoStr) : Bool × Option String :=
  match env path with
  | none => (false, none)
  | some lines =>
    ((scannedLines lines).any fun line =>
      (lineTokens isTok line).any fun w => tokenMatches w code, none)

/-- The boolean component of `foundInFileE` (the only part its callers use:
both validators discard or ignore the error). -/
def foundInFile (isTok : Char → Bool) (env : Sources) (path : String)
    (code : GoStr) : Bool :=
  (foundInFileE isTok env path code).1

/-!
The bounded LRU cache of `part_005`.  Go's `container/list` plus
`map[string]*list.Element` is modelled as one list of key/value pairs whose
head is the front of the recency list (most recently used) and whose last
element is the back (least recently used).  The mutex is dropped: the
shallow embedding is sequential.
-/

/-- The state of `type LRU struct`: capacity and the recency-ordered
entries, front (most recently used) first. -/
structure LRU where
  max : Nat
  entries : List (GoStr × Bool)
deriving DecidableEq, Repr

/-- `func NewLRU(max int) *LRU`: a capacity request below 1 is clamped to 1
(`if max < 1 { max = 1 }`); the cache starts empty. -/
def NewLRU (max : Int) : LRU :=
  { max := (if max < 1 then 1 else max).toNat, entries := [] }

namespace LRU

/-- `func (c *LRU) Get(k string) (bool, bool)`: on a hit, the entry moves to
the front and its value is returned; `some v` models `(v, true)` and `none`
models `(false, false)`.  Returns the value and the updated cache. -/
def get (c : LRU) (k : GoStr) : Option Bool × LRU :=
  match c.entries.find? (fun e => e.1 == k) with
  | some e => (some e.2, { c with entries := e :: c.entries.eraseP (fun e => e.1 == k) })
  | none => (none, c)

/-- `func (c *LRU) Add(k string, v bool)`: an existing key is updated and
moved to the front; a fresh key is pushed to the front and, if the entry
count then exceeds the capacity, the back (least recently used) entry is
removed. -/
def add (c : LRU) (k : GoStr) (v : Bool) : LRU :=
  if c.entries.any (fun e => e.1 == k) then
    { c with entries := (k, v) :: c.entries.eraseP (fun e => e.1 == k) }
  else
    let es := (k, v) :: c.entries
    if es.length > c.max then { c with entries := es.dropLast }
    else { c with entries := es }

/-- `func (c *LRU) Len() int`: the current number of entries. -/
def len (c : LRU) : Nat := c.entries.length

end LRU

/-!
The parallel validator of `part_004` (`parallelValidator`).
-/

/-- `type Config struct` of `part_004`.  Go `int` fields are modelled as
`Int` (the configuration is arbitrary caller input, including invalid
values). -/
structure Config where
  Dir : String
  Files : List String
  MinLen : Int
  MaxLen : Int
  RequiredHits : Int
  CacheSize : Int
deriving Repr

/-- The three misconfiguration cases detected by `LoadCouponFiles`. -/
inductive ConfigError
  | noFiles
  | badLengthBounds
  | badRequiredHits
deriving DecidableEq, Repr

/-- The checks run inside `v.once.Do` in `LoadCouponFiles`: no files, or
`MinLen <= 0 || MaxLen < MinLen`, or `RequiredHits <= 0`. -/
def configCheck (cfg : Config) : Option ConfigError :=
  if cfg.Files.length == 0 then some .noFiles
  else if cfg.MinLen ≤ 0 || cfg.MaxLen < cfg.MinLen then some .badLengthBounds
  else if cfg.RequiredHits ≤ 0 then some .badRequiredHits
  else none

/-- The state of `parallelValidator`: the config, the recorded outcome of
the one-time config check (`none` while `sync.Once` has not yet run,
`some r` afterwards, where `r` is the sticky `init` error), and the
optional bounded cache (`none` models `lru == nil`, caching disabled). -/
structure PV where
  cfg : Config
  init : Option (Option ConfigError)
  lru : Option LRU

/-- `func NewValidatorService(cfg Config) ValidatorService` of `part_004`:
a zero `CacheSize` defaults to 50000; a positive size builds an LRU; a
negative size disables caching (`lru == nil`). -/
def NewValidatorService (cfg : Config) : PV :=
  let size := if cfg.CacheSize == 0 then 50000 else cfg.CacheSize
  { cfg := cfg, init := none,
    lru := if size > 0 then some (NewLRU size) else none }

/-- `func (v *parallelValidator) LoadCouponFiles() error`: under
`sync.Once`, run `configCheck` exactly once and record its outcome; every
later call returns the recorded outcome without re-checking. -/
def LoadCouponFiles (v : PV) : Option ConfigError × PV :=
  match v.init with
  | some r => (r, v)
  | none =>
    let r := configCheck v.cfg
    (r, { v with init := some r })

/-- `filepath.Join(v.cfg.Dir, name)` (modelled without path cleaning, which
no theorem depends on: the environment is keyed by the joined string). -/
def joinPath (dir name : String) : String :=
  if dir == "" then name else dir ++ "/" ++ name

/-- Go's conversion `int32(n)`: the low 32 bits of `n`, read as a
two's-complement signed value in `[-2^31, 2^31)`. -/
def wrap32 (n : Int) : Int := (n + 2 ^ 31) % 2 ^ 32 - 2 ^ 31

/-- The scan loop of `ValidatePromoCode` in `part_004`, sequentially
determinized: one task per file in listed order, a shared hit counter
`found`, and the shared `stop` flag that is set by the task whose hit makes
the counter reach the quorum and that makes later iterations skip their
scan.  Both comparison sites narrow the quorum exactly as the source does
(`atomic.AddInt32(&found, 1) >= int32(v.cfg.RequiredHits)`), so the counter
is compared against `wrap32 required`.  Returns the final counter and the
list of paths actually handed to `foundInFile` (the source accesses).  The
`int32` counter itself is modelled as an exact count: it grows only by 1
per dispatched hit, so it is bounded by the file count and could wrap only
in a run with at least `2^31` hit-reporting files. -/
def scanFiles (isTok : Char → Bool) (env : Sources) (code : GoStr)
    (required : Int) : List String → Nat → Bool → Nat × List String
  | [], found, _ => (found, [])
  | path :: rest, found, stop =>
    if stop then (found, [])
    else
      let hit := foundInFile isTok env path code
      let found := if hit then found + 1 else found
      let stop := hit && (found : Int) ≥ wrap32 required
      let out := scanFiles isTok env code required rest found stop
      (out.1, path :: out.2)

/-- The result of one instrumented `ValidatePromoCode` call: the returned
boolean, the paths opened for scanning (empty iff no source was touched),
whether the verdict came from the cache, and the validator state after the
call. -/
structure VOut where
  result : Bool
  accessed : List String
  cacheHit : Bool
  st : PV

/-- The scan-and-cache tail of `ValidatePromoCode`: run the fan-out over all
configured files, compare the final hit counter against the quorum narrowed
to `int32` (`atomic.LoadInt32(&found) >= int32(v.cfg.RequiredHits)`), and
store the verdict in the cache when caching is enabled. -/
def scanAndStore (isTok : Char → Bool) (env : Sources) (v : PV)
    (code : GoStr) : VOut :=
  let out := scanFiles isTok env code v.cfg.RequiredHits
    (v.cfg.Files.map (joinPath v.cfg.Dir)) 0 false
  let result := (out.1 : Int) ≥ wrap32 v.cfg.RequiredHits
  let st := match v.lru with
    | some l => { v with lru := some (l.add code result) }
    | none => v
  ⟨result, out.2, false, st⟩

/-- The structural pre-check of `ValidatePromoCode`, on the already-trimmed
code: `l < MinLen || l > MaxLen || !isAlnum(code)` where `l` is the byte
length. -/
def structFail (cfg : Config) (code : GoStr) : Bool :=
  decide ((byteLen code : Int) < cfg.MinLen) ||
  decide ((byteLen code : Int) > cfg.MaxLen) || !isAlnum code

/-- `func (v *parallelValidator) ValidatePromoCode(code string) bool` of
`part_004`: run the one-time config check and ignore its error
(`_ = v.LoadCouponFiles()`); trim the code; reject it when its byte length
is outside `[MinLen, MaxLen]` or it is not ASCII-alphanumeric; otherwise
consult the cache (when enabled) and on a miss scan the files and cache the
verdict. -/
def ValidatePromoCode (isTok : Char → Bool) (env : Sources) (v : PV)
    (code : GoStr) : VOut :=
  let v := (LoadCouponFiles v).2
  let code := trimSpace code
  if structFail v.cfg code then
    ⟨false, [], false, v⟩
  else
    match v.lru with
    | some l =>
      match l.get code with
      | (some val, l2) => ⟨val, [], true, { v with lru := some l2 }⟩
      | (none, l2) => scanAndStore isTok env { v with lru := some l2 } code
    | none => scanAndStore isTok env v code

/-- The number of configured sources in which the exact (trimmed) token
occurs: the hit count of a full, never-stopped scan. -/
def hitCount (isTok : Char → Bool) (env : Sources) (cfg : Config)
    (code : GoStr) : Nat :=
  (cfg.Files.map (joinPath cfg.Dir)).countP (fun p => foundInFile isTok env p code)

/-- The pure verdict of a cache-less scan: the number of configured sources
containing the exact token reaches the quorum narrowed to `int32`, exactly
as the comparison sites of the source compute it. -/
def pureVerdict (isTok : Char → Bool) (env : Sources) (cfg : Config)
    (code : GoStr) : Bool :=
  (hitCount isTok env cfg code : Int) ≥ wrap32 cfg.RequiredHits

/-- Convenience: a Go string literal as its rune list. -/
def strChars (s : String) : GoStr := s.data

/-- The environment in which every file is missing or unreadable. -/
def emptySources : Sources := fun _ => none

/-- Deleting one source from disk: the path `q` now fails to open. -/
def removeSource (env : Sources) (q : String) : Sources :=
  fun p => if p = q then none else env p

/-- The trimmed code has no cached verdict (vacuously true when caching is
disabled). -/
def notCached (v : PV) (code : GoStr) : Prop :=
  ∀ l, v.lru = some l → (l.get (trimSpace code)).1 = none

/-- Every cached verdict agrees with the verdict a fresh scan would compute:
the state a validator reaches from an empty (or absent) cache under a fixed
environment. -/
def coherent (isTok : Char → Bool) (env : Sources) (v : PV) : Prop :=
  ∀ l, v.lru = some l → ∀ e ∈ l.entries,
    e.2 = pureVerdict isTok env v.cfg e.1

/-- One cache operation, for stating invariants over arbitrary
`Get`/`Add` interleavings. -/
inductive LRUOp
  | get (k : GoStr)
  | add (k : GoStr) (v : Bool)

/-- Apply one cache operation to the cache state. -/
def applyOp (c : LRU) : LRUOp → LRU
  | .get k => (c.get k).2
  | .add k v => c.add k v

/-- Apply a finite sequence of cache operations in order. -/
def applyOps (c : LRU) (ops : List LRUOp) : LRU := ops.foldl applyOp c

/-!
Concrete instances for evaluating the theorems.  `exTok` stands in for
`unicode.IsLetter || unicode.IsNumber` on inputs that are ASCII; `exTokU`
additionally accepts the non-ASCII letter `É`, as the Unicode-aware Go
predicate does.
-/

/-- A tokenizer predicate agreeing with Go's on ASCII input. -/
def exTok : Char → Bool := isAlnumChar

/-- A tokenizer predicate agreeing with Go's on ASCII input and on the
non-ASCII letter `É` (which `unicode.IsLetter` accepts). -/
def exTokU (c : Char) : Bool := isAlnumChar c || c == 'É'

/-- The concrete scenario of the spec: source 1 holds the token `HAPPYHRS`,
source 2 holds it inside a longer line, source 3 is missing. -/
def exEnv : Sources := fun p =>
  if p = "data/f1" then some [strChars "HAPPYHRS"]
  else if p = "data/f2" then
    some [strChars "random HAPPYHRS here", strChars "ONLYHERE1"]
  else none

/-- A variant in which all three sources hold the token `HAPPYHRS`. -/
def exEnvAll : Sources := fun p =>
  if p = "data/f1" then some [strChars "HAPPYHRS"]
  else if p = "data/f2" then some [strChars "random HAPPYHRS here"]
  else if p = "data/f3" then some [strChars "say HAPPYHRS twice"]
  else none

/-- A source whose single line contains the candidate only as a substring. -/
def exEnvSub : Sources := fun p =>
  if p = "f" then some [strChars "randomHAPPYHRStext"] else none

/-- A source holding the non-ASCII token `CAFÉCODES`. -/
def exEnvU : Sources := fun p =>
  if p = "f" then some [strChars "CAFÉCODES"] else none

/-- The spec scenario's configuration: three sources, lengths 8–10, quorum
2; caching disabled so the scan itself is observed. -/
def exCfg : Config :=
  { Dir := "data", Files := ["f1", "f2", "f3"], MinLen := 8, MaxLen := 10,
    RequiredHits := 2, CacheSize := -1 }

/-- The spec scenario's configuration with a one-entry cache enabled. -/
def exCfgCached : Config := { exCfg with CacheSize := 1 }

/-- An invalid configuration: non-positive quorum (with otherwise usable
length bounds and a configured file). -/
def exCfgBad : Config :=
  { Dir := "d", Files := ["f"], MinLen := 1, MaxLen := 2,
    RequiredHits := 0, CacheSize := -1 }

/-- The validator over `exCfg` (cache disabled). -/
def exV : PV := NewValidatorService exCfg

/-- The validator over `exCfgCached` (capacity-1 cache). -/
def exVCached : PV := NewValidatorService exCfgCached

/-- The validator over the invalid `exCfgBad`. -/
def exVBad : PV := NewValidatorService exCfgBad

/-- A configuration whose quorum does not fit in `int32`: `RequiredHits`
is `2^32`, which the config check accepts (it is positive) but which the
comparison sites narrow to `int32(2^32) = 0`. -/
def exCfgWide : Config :=
  { Dir := "d", Files := ["x"], MinLen := 1, MaxLen := 2,
    RequiredHits := 2 ^ 32, CacheSize := -1 }

/-- The validator over `exCfgWide`. -/
def exVWide : PV := NewValidatorService exCfgWide

/-- A full capacity-2 cache: `BB` most recent, `AA` least recent. -/
def exLru : LRU := ((NewLRU 2).add (strChars "AA") true).add (strChars "BB") false

/-!
Lemmas about the LRU cache.
-/

lemma LRU.get_eq_none (c : LRU) (k : GoStr)
    (hf : c.entries.find? (fun e => e.1 == k) = none) : c.get k = (none, c) := by
  unfold LRU.get
  rw [hf]

lemma LRU.get_eq_some (c : LRU) (k : GoStr) (e : GoStr × Bool)
    (hf : c.entries.find? (fun e => e.1 == k) = some e) :
    c.get k = (some e.2,
      { c with entries := e :: c.entries.eraseP (fun e => e.1 == k) }) := by
  unfold LRU.get
  rw [hf]

lemma LRU.get_max (c : LRU) (k : GoStr) : ((c.get k).2).max = c.max := by
  unfold LRU.get
  cases c.entries.find? (fun e => e.1 == k) <;> rfl

lemma LRU.add_max (c : LRU) (k : GoStr) (v : Bool) : (c.add k v).max = c.max := by
  unfold LRU.add
  split
  · rfl
  · dsimp only
    split <;> rfl

lemma LRU.get_len (c : LRU) (k : GoStr) : ((c.get k).2).len = c.len := by
  unfold LRU.get LRU.len
  cases hf : c.entries.find? (fun e => e.1 == k) with
  | none => rfl
  | some e =>
    have hmem : e ∈ c.entries := List.mem_of_find?_eq_some hf
    have hpos : 0 < c.entries.length := List.length_pos_of_mem hmem
    have hpe := List.find?_some hf
    have hlen : (c.entries.eraseP (fun e => e.1 == k)).length =
        c.entries.length - 1 :=
      List.length_eraseP_of_mem hmem hpe
    simp only [List.length_cons, hlen]
    omega

lemma LRU.add_len (c : LRU) (k : GoStr) (v : Bool) (h : c.len ≤ c.max) :
    (c.add k v).len ≤ c.max := by
  unfold LRU.add LRU.len
  unfold LRU.len at h
  split
  · next hany =>
    obtain ⟨e, hmem, hpe⟩ := List.any_eq_true.mp hany
    have hpos : 0 < c.entries.length := List.length_pos_of_mem hmem
    have hlen : (c.entries.eraseP (fun e => e.1 == k)).length =
        c.entries.length - 1 :=
      List.length_eraseP_of_mem hmem hpe
    simp only [List.length_cons, hlen]
    omega
  · dsimp only
    split
    · next hover =>
      simp only [List.length_dropLast, List.length_cons]
      omega
    · next hover =>
      simp only [List.length_cons] at hover ⊢
      omega

lemma LRU.head_of_add (c : LRU) (k : GoStr) (v : Bool) (h : 1 ≤ c.max) :
    (c.add k v).entries.head? = some (k, v) := by
  unfold LRU.add
  split
  · rfl
  · dsimp only
    split
    · next hover =>
      cases hc : c.entries with
      | nil =>
        simp only [hc, List.length_cons, List.length_nil] at hover
        omega
      | cons e0 rest =>
        simp only [hc, List.dropLast_cons₂, List.head?_cons]
    · rfl

lemma LRU.get_of_add (c : LRU) (k : GoStr) (v : Bool) (h : 1 ≤ c.max) :
    ((c.add k v).get k).1 = some v := by
  have hh := LRU.head_of_add c k v h
  unfold LRU.get
  cases he : (c.add k v).entries with
  | nil => simp [he] at hh
  | cons e0 rest =>
    simp only [he, List.head?_cons, Option.some.injEq] at hh
    subst hh
    rw [List.find?_cons_of_pos _ (by simp)]

lemma LRU.get_get (c : LRU) (k : GoStr) (val : Bool)
    (h : (c.get k).1 = some val) : (((c.get k).2).get k).1 = some val := by
  cases hf : c.entries.find? (fun e => e.1 == k) with
  | none => rw [LRU.get_eq_none c k hf] at h; simp at h
  | some e =>
    rw [LRU.get_eq_some c k e hf] at h ⊢
    simp only [Option.some.injEq] at h
    have hpe := List.find?_some hf
    have hf2 : ({ c with entries := e :: c.entries.eraseP (fun e => e.1 == k) } : LRU).entries.find?
        (fun e => e.1 == k) = some e := List.find?_cons_of_pos _ hpe
    rw [LRU.get_eq_some _ k e hf2]
    simp [h]

lemma LRU.evict_back (c : LRU) (k : GoStr) (v : Bool)
    (hfresh : c.entries.any (fun e => e.1 == k) = false)
    (hfull : c.entries.length = c.max) (hpos : 1 ≤ c.max) :
    (c.add k v).entries = (k, v) :: c.entries.dropLast := by
  unfold LRU.add
  rw [if_neg (by simp [hfresh])]
  dsimp only
  rw [if_pos (by simp [List.length_cons, hfull])]
  cases hc : c.entries with
  | nil => rw [hc] at hfull; simp at hfull; omega
  | cons e0 rest => simp [hc, List.dropLast_cons₂]

lemma applyOp_max (c : LRU) (op : LRUOp) : (applyOp c op).max = c.max := by
  cases op with
  | get k => exact LRU.get_max c k
  | add k v => exact LRU.add_max c k v

lemma applyOp_len (c : LRU) (op : LRUOp) (h : c.len ≤ c.max) :
    (applyOp c op).len ≤ (applyOp c op).max := by
  cases op with
  | get k =>
    show ((c.get k).2).len ≤ ((c.get k).2).max
    rw [LRU.get_len, LRU.get_max]
    exact h
  | add k v =>
    show (c.add k v).len ≤ (c.add k v).max
    rw [LRU.add_max]
    exact LRU.add_len c k v h

lemma applyOps_len (c : LRU) (ops : List LRUOp) (h : c.len ≤ c.max) :
    (applyOps c ops).len ≤ (applyOps c ops).max := by
  induction ops generalizing c with
  | nil => exact h
  | cons op rest ih => exact ih (applyOp c op) (applyOp_len c op h)

lemma applyOps_max (c : LRU) (ops : List LRUOp) :
    (applyOps c ops).max = c.max := by
  induction ops generalizing c with
  | nil => rfl
  | cons op rest ih =>
    show (applyOps (applyOp c op) rest).max = c.max
    rw [ih (applyOp c op), applyOp_max]

/-- C8: the cache evicts in recency order — a fresh `Add` on a full cache
removes exactly the back (least-recently-accessed) entry, and a `Get` hit
or an `Add` moves the touched key to the front (most recently used). -/
theorem lru_recency (c : LRU) (k : GoStr) (v : Bool) :
    (1 ≤ c.max → (c.add k v).entries.head? = some (k, v)) ∧
    (∀ val, (c.get k).1 = some val →
      ((c.get k).2).entries.head? = some (k, val)) ∧
    (c.entries.any (fun e => e.1 == k) = false → c.entries.length = c.max →
      1 ≤ c.max → (c.add k v).entries = (k, v) :: c.entries.dropLast) := by
  refine ⟨fun h => LRU.head_of_add c k v h, fun val hv => ?_,
    fun hfresh hfull hpos => LRU.evict_back c k v hfresh hfull hpos⟩
  cases hf : c.entries.find? (fun e => e.1 == k) with
  | none => rw [LRU.get_eq_none c k hf] at hv; simp at hv
  | some e =>
    rw [LRU.get_eq_some c k e hf] at hv ⊢
    simp only [Option.some.injEq] at hv
    have hpe := List.find?_some hf
    simp only [beq_iff_eq] at hpe
    simp only [List.head?_cons, Option.some.injEq]
    cases e with
    | mk ek ev => simp only at hpe hv; rw [hpe, hv]

/-- Concrete run of `lru_recency`: on the full capacity-2 cache `exLru`, a
fresh `Add` of key `CC` evicts the back entry `AA`, and a `Get` hit on `AA`
moves it to the front. -/
theorem lru_recency_app :
    (exLru.add (strChars "CC") true).entries =
      (strChars "CC", true) :: exLru.entries.dropLast ∧
    ((exLru.get (strChars "AA")).2).entries.head? =
      some (strChars "AA", true) :=
  ⟨(lru_recency exLru (strChars "CC") true).2.2 (by decide) (by decide)
      (by decide),
   (lru_recency exLru (strChars "AA") true).2.1 true (by decide)⟩

/-- C10: the entry count of a cache built by `NewLRU` never exceeds its
effective capacity (the requested `max` when `max ≥ 1`, else `1`) under any
finite sequence of `Get`/`Add` operations, and each single `Get` preserves
the count while each single `Add` preserves the bound. -/
theorem lru_bound (m : Int) (ops : List LRUOp) :
    ((applyOps (NewLRU m) ops).len ≤ (NewLRU m).max) ∧
    (1 ≤ m → ((NewLRU m).max : Int) = m) ∧
    (m < 1 → (NewLRU m).max = 1) ∧
    (∀ c : LRU, ∀ k, ((c.get k).2).len = c.len) ∧
    (∀ c : LRU, ∀ k v, c.len ≤ c.max → (c.add k v).len ≤ c.max) := by
  refine ⟨?_, ?_, ?_, fun c k => LRU.get_len c k,
    fun c k v h => LRU.add_len c k v h⟩
  · have h0 : (NewLRU m).len ≤ (NewLRU m).max := by
      simp [NewLRU, LRU.len]
    have := applyOps_len (NewLRU m) ops h0
    rwa [applyOps_max] at this
  · intro hm
    simp only [NewLRU]
    rw [if_neg (by omega)]
    omega
  · intro hm
    simp only [NewLRU]
    rw [if_pos hm]
    rfl

/-- Concrete run of `lru_bound`: a capacity-0 request is clamped to
capacity 1, and three adds plus a get leave at most one entry. -/
theorem lru_bound_app :
    (applyOps (NewLRU 0) [LRUOp.add (strChars "AA") true,
      LRUOp.add (strChars "BB") false, LRUOp.get (strChars "BB"),
      LRUOp.add (strChars "CC") true]).len ≤ (NewLRU 0).max ∧
    (NewLRU 0).max = 1 ∧
    (exLru.add (strChars "CC") true).len ≤ exLru.max :=
  ⟨(lru_bound 0 [LRUOp.add (strChars "AA") true,
      LRUOp.add (strChars "BB") false, LRUOp.get (strChars "BB"),
      LRUOp.add (strChars "CC") true]).1,
   (lru_bound 0 []).2.2.1 (by decide),
   (lru_bound 0 []).2.2.2.2 exLru (strChars "CC") true (by decide)⟩

/-!
Lemmas about the scan loop and the validator.
-/

lemma scanFiles_nil (isTok : Char → Bool) (env : Sources) (code : GoStr)
    (K : Int) (found : Nat) (stop : Bool) :
    scanFiles isTok env code K [] found stop = (found, []) := rfl

lemma scanFiles_cons_stop (isTok : Char → Bool) (env : Sources)
    (code : GoStr) (K : Int) (p : String) (rest : List String) (found : Nat) :
    scanFiles isTok env code K (p :: rest) found true = (found, []) := rfl

lemma scanFiles_cons_go (isTok : Char → Bool) (env : Sources) (code : GoStr)
    (K : Int) (p : String) (rest : List String) (found : Nat) :
    scanFiles isTok env code K (p :: rest) found false =
      (let hit := foundInFile isTok env p code
       let found2 := if hit then found + 1 else found
       let stop2 := hit && decide ((found2 : Int) ≥ wrap32 K)
       let out := scanFiles isTok env code K rest found2 stop2
       (out.1, p :: out.2)) := rfl

lemma scanFiles_ge (isTok : Char → Bool) (env : Sources) (code : GoStr)
    (K : Int) (paths : List String) (found : Nat) (stop : Bool)
    (hstop : stop = true → (found : Int) ≥ wrap32 K) :
    (((scanFiles isTok env code K paths found stop).1 : Int) ≥ wrap32 K ↔
      (found : Int) + paths.countP (fun p => foundInFile isTok env p code) ≥
        wrap32 K) := by
  induction paths generalizing found stop with
  | nil =>
    rw [scanFiles_nil]
    simp only [List.countP_nil]
    constructor <;> intro <;> omega
  | cons p rest ih =>
    cases stop with
    | true =>
      rw [scanFiles_cons_stop]
      have hf := hstop rfl
      have hc : (0 : Int) ≤ rest.countP (fun p => foundInFile isTok env p code) := by
        positivity
      rw [List.countP_cons]
      constructor <;> intro <;>
        simp only [Nat.cast_add] at * <;> split at * <;> omega
    | false =>
      rw [scanFiles_cons_go]
      cases hhit : foundInFile isTok env p code with
      | true =>
        show (((scanFiles isTok env code K rest (found + 1)
            (true && decide (((found + 1 : Nat) : Int) ≥ wrap32 K))).1 : Int) ≥
          wrap32 K ↔ _)
        have hih := ih (found + 1)
          (true && decide (((found + 1 : Nat) : Int) ≥ wrap32 K))
          (by intro h; simp only [Bool.true_and, decide_eq_true_eq] at h; exact h)
        rw [hih]
        have hcc : (p :: rest).countP (fun q => foundInFile isTok env q code) =
            rest.countP (fun q => foundInFile isTok env q code) + 1 := by
          rw [List.countP_cons]
          simp [hhit]
        rw [hcc]
        push_cast
        omega
      | false =>
        show (((scanFiles isTok env code K rest found
            (false && decide (((found : Nat) : Int) ≥ wrap32 K))).1 : Int) ≥
          wrap32 K ↔ _)
        have hih := ih found (false && decide (((found : Nat) : Int) ≥ wrap32 K))
          (by intro h; simp only [Bool.false_and] at h; cases h)
        rw [hih]
        have hcc : (p :: rest).countP (fun q => foundInFile isTok env q code) =
            rest.countP (fun q => foundInFile isTok env q code) := by
          rw [List.countP_cons]
          simp [hhit]
        rw [hcc]

lemma load_cfg (v : PV) : (LoadCouponFiles v).2.cfg = v.cfg := by
  rcases v with ⟨cfg, init, lru⟩
  cases init <;> rfl

lemma load_lru (v : PV) : (LoadCouponFiles v).2.lru = v.lru := by
  rcases v with ⟨cfg, init, lru⟩
  cases init <;> rfl

lemma load_first (v : PV) (h : v.init = none) :
    LoadCouponFiles v = (configCheck v.cfg,
      { v with init := some (configCheck v.cfg) }) := by
  rcases v with ⟨cfg, init, lru⟩
  cases init with
  | none => rfl
  | some r => cases h

lemma load_again (v : PV) (r : Option ConfigError) (h : v.init = some r) :
    LoadCouponFiles v = (r, v) := by
  rcases v with ⟨cfg, init, lru⟩
  cases init with
  | none => cases h
  | some r2 =>
    cases h
    rfl

lemma scanAndStore_result (isTok : Char → Bool) (env : Sources) (v : PV)
    (code : GoStr) :
    (scanAndStore isTok env v code).result = pureVerdict isTok env v.cfg code := by
  unfold scanAndStore pureVerdict hitCount
  have h := scanFiles_ge isTok env code v.cfg.RequiredHits
    (v.cfg.Files.map (joinPath v.cfg.Dir)) 0 false (by intro h; cases h)
  simp only [Nat.cast_zero, zero_add] at h
  cases v.lru <;> simp only [] <;> exact decide_eq_decide.mpr h

lemma scanAndStore_cacheHit (isTok : Char → Bool) (env : Sources) (v : PV)
    (code : GoStr) : (scanAndStore isTok env v code).cacheHit = false := by
  unfold scanAndStore
  cases v.lru <;> rfl

lemma scanAndStore_st_cfg (isTok : Char → Bool) (env : Sources) (v : PV)
    (code : GoStr) : (scanAndStore isTok env v code).st.cfg = v.cfg := by
  unfold scanAndStore
  cases v.lru <;> rfl

lemma validate_structFail (isTok : Char → Bool) (env : Sources) (v : PV)
    (code : GoStr) (h : structFail v.cfg (trimSpace code) = true) :
    ValidatePromoCode isTok env v code =
      ⟨false, [], false, (LoadCouponFiles v).2⟩ := by
  simp only [ValidatePromoCode]
  rw [load_cfg, if_pos h]

lemma validate_nolru (isTok : Char → Bool) (env : Sources) (v : PV)
    (code : GoStr) (h : structFail v.cfg (trimSpace code) = false)
    (hl : v.lru = none) :
    ValidatePromoCode isTok env v code =
      scanAndStore isTok env (LoadCouponFiles v).2 (trimSpace code) := by
  simp only [ValidatePromoCode]
  rw [load_cfg, if_neg (by simp [h]), load_lru, hl]

lemma validate_hit (isTok : Char → Bool) (env : Sources) (v : PV)
    (code : GoStr) (l l2 : LRU) (val : Bool)
    (h : structFail v.cfg (trimSpace code) = false) (hl : v.lru = some l)
    (hg : l.get (trimSpace code) = (some val, l2)) :
    ValidatePromoCode isTok env v code =
      ⟨val, [], true, { (LoadCouponFiles v).2 with lru := some l2 }⟩ := by
  simp only [ValidatePromoCode]
  rw [load_cfg, if_neg (by simp [h]), load_lru, hl]
  dsimp only
  rw [hg]

lemma validate_miss (isTok : Char → Bool) (env : Sources) (v : PV)
    (code : GoStr) (l l2 : LRU)
    (h : structFail v.cfg (trimSpace code) = false) (hl : v.lru = some l)
    (hg : l.get (trimSpace code) = (none, l2)) :
    ValidatePromoCode isTok env v code =
      scanAndStore isTok env { (LoadCouponFiles v).2 with lru := some l2 }
        (trimSpace code) := by
  simp only [ValidatePromoCode]
  rw [load_cfg, if_neg (by simp [h]), load_lru, hl]
  dsimp only
  rw [hg]

lemma LRU.get_some_mem (c : LRU) (k : GoStr) (val : Bool)
    (h : (c.get k).1 = some val) :
    ∃ e ∈ c.entries, e.1 = k ∧ e.2 = val := by
  cases hf : c.entries.find? (fun e => e.1 == k) with
  | none => rw [LRU.get_eq_none c k hf] at h; simp at h
  | some e =>
    rw [LRU.get_eq_some c k e hf] at h
    simp only [Option.some.injEq] at h
    have hpe := List.find?_some hf
    simp only [beq_iff_eq] at hpe
    exact ⟨e, List.mem_of_find?_eq_some hf, hpe, h⟩

lemma tokenMatches_iff (w code : GoStr) : tokenMatches w code = true ↔ w = code := by
  unfold tokenMatches
  constructor
  · intro h
    simp only [Bool.and_eq_true, beq_iff_eq] at h
    exact h.2
  · intro h
    subst h
    simp

lemma fieldsFuncAux_keep (p : Char → Bool) (s cur : GoStr) (hcur : cur ≠ [])
    (hs : ∀ d ∈ s, p d = false) :
    fieldsFuncAux p cur s = [cur.reverse ++ s] := by
  induction s generalizing cur with
  | nil =>
    unfold fieldsFuncAux
    rw [if_neg (by simpa using hcur)]
    simp
  | cons c rest ih =>
    unfold fieldsFuncAux
    rw [if_neg (by simp [hs c (by simp)])]
    rw [ih (c :: cur) (by simp) (fun d hd => hs d (by simp [hd]))]
    simp

lemma fieldsFunc_keep (p : Char → Bool) (s : GoStr) (hne : s ≠ [])
    (hs : ∀ d ∈ s, p d = false) : fieldsFunc p s = [s] := by
  cases s with
  | nil => cases hne rfl
  | cons c rest =>
    unfold fieldsFunc fieldsFuncAux
    rw [if_neg (by simp [hs c (by simp)])]
    rw [fieldsFuncAux_keep p rest [c] (by simp)
      (fun d hd => hs d (by simp [hd]))]
    simp

lemma foundInFile_congr (isTok : Char → Bool) (env1 env2 : Sources)
    (path : String) (code : GoStr) (h : env1 path = env2 path) :
    foundInFile isTok env1 path code = foundInFile isTok env2 path code := by
  unfold foundInFile foundInFileE
  rw [h]

lemma foundInFile_none (isTok : Char → Bool) (env : Sources) (path : String)
    (code : GoStr) (h : env path = none) :
    foundInFile isTok env path code = false := by
  unfold foundInFile foundInFileE
  rw [h]

lemma hitCount_remove_le (isTok : Char → Bool) (env : Sources) (q : String)
    (cfg : Config) (code : GoStr) :
    hitCount isTok (removeSource env q) cfg code ≤ hitCount isTok env cfg code := by
  unfold hitCount
  apply List.countP_mono_left
  intro p _ hp
  by_cases hpq : p = q
  · rw [foundInFile_none isTok (removeSource env q) p code
      (by simp [removeSource, hpq])] at hp
    cases hp
  · rwa [foundInFile_congr isTok (removeSource env q) env p code
      (by simp [removeSource, hpq])] at hp

lemma validate_result_pure (isTok : Char → Bool) (env : Sources) (v : PV)
    (code : GoStr) (hcoh : coherent isTok env v) :
    (ValidatePromoCode isTok env v code).result =
      if structFail v.cfg (trimSpace code) then false
      else pureVerdict isTok env v.cfg (trimSpace code) := by
  cases hsf : structFail v.cfg (trimSpace code) with
  | true => rw [validate_structFail isTok env v code hsf]; simp
  | false =>
    simp only [Bool.false_eq_true, if_false]
    cases hl : v.lru with
    | none =>
      rw [validate_nolru isTok env v code hsf hl, scanAndStore_result, load_cfg]
    | some l =>
      cases hgv : (l.get (trimSpace code)).1 with
      | none =>
        have hg : l.get (trimSpace code) = (none, (l.get (trimSpace code)).2) := by
          rw [← hgv]
        rw [validate_miss isTok env v code l (l.get (trimSpace code)).2 hsf hl hg,
          scanAndStore_result]
        show pureVerdict isTok env (LoadCouponFiles v).2.cfg (trimSpace code) = _
        rw [load_cfg]
      | some val =>
        have hg : l.get (trimSpace code) = (some val, (l.get (trimSpace code)).2) := by
          rw [← hgv]
        rw [validate_hit isTok env v code l (l.get (trimSpace code)).2 val hsf hl hg]
        obtain ⟨e, hmem, hek, hev⟩ := LRU.get_some_mem l (trimSpace code) val hgv
        have := hcoh l hl e hmem
        show val = _
        rw [← hev, this, hek]

/-!
Claim theorems.
-/

lemma wrap32_eq_self (n : Int) (h1 : -(2 ^ 31) ≤ n) (h2 : n < 2 ^ 31) :
    wrap32 n = n := by
  unfold wrap32
  omega

/-- C1 counterexample: the quorum `2^32` passes the config check (it is
positive, so `K >= 1` holds) but is narrowed to `int32(2^32) = 0` at the
comparison sites, so the structurally valid, uncached code `A`, which
occurs in zero sources, still validates `true`. -/
theorem quorum_semantics_cex :
    1 ≤ exCfgWide.RequiredHits ∧
    configCheck exCfgWide = none ∧
    structFail exCfgWide (trimSpace (strChars "A")) = false ∧
    exVWide.lru = none ∧
    hitCount exTok emptySources exCfgWide (trimSpace (strChars "A")) = 0 ∧
    (ValidatePromoCode exTok emptySources exVWide (strChars "A")).result =
      true := by
  refine ⟨by decide, by decide, by decide, by decide, by decide, by decide⟩

/-- C1 amended: for any configuration whose quorum satisfies
`1 <= RequiredHits < 2^31` (so the quorum survives the `int32` narrowing at
the comparison sites), and a candidate whose trimmed form passes the
structural pre-check and is not already cached, `ValidatePromoCode` returns
`true` iff the exact token occurs in at least `RequiredHits` of the
configured sources; outside that range the counter is compared against
`int32(RequiredHits)` instead (see the counterexample). -/
theorem quorum_semantics (isTok : Char → Bool) (env : Sources) (v : PV)
    (code : GoStr) (hK : 1 ≤ v.cfg.RequiredHits)
    (hK31 : v.cfg.RequiredHits < 2 ^ 31)
    (hstruct : structFail v.cfg (trimSpace code) = false)
    (hmiss : notCached v code) :
    ((ValidatePromoCode isTok env v code).result = true ↔
      (hitCount isTok env v.cfg (trimSpace code) : Int) ≥ v.cfg.RequiredHits) := by
  have hw : wrap32 v.cfg.RequiredHits = v.cfg.RequiredHits :=
    wrap32_eq_self v.cfg.RequiredHits (by omega) hK31
  cases hl : v.lru with
  | none =>
    rw [validate_nolru isTok env v code hstruct hl, scanAndStore_result, load_cfg]
    unfold pureVerdict
    rw [hw]
    exact decide_eq_true_iff
  | some l =>
    have hgv : (l.get (trimSpace code)).1 = none := hmiss l hl
    have hg : l.get (trimSpace code) = (none, (l.get (trimSpace code)).2) := by
      rw [← hgv]
    rw [validate_miss isTok env v code l (l.get (trimSpace code)).2 hstruct hl hg,
      scanAndStore_result]
    show pureVerdict isTok env (LoadCouponFiles v).2.cfg (trimSpace code) = true ↔ _
    rw [load_cfg]
    unfold pureVerdict
    rw [hw]
    exact decide_eq_true_iff

/-- Concrete run of `quorum_semantics` in the spec's scenario (three
sources, quorum 2): `HAPPYHRS` occurs in sources 1 and 2 (source 3 is
missing) and validates `true`; `ONLYHERE1` occurs only in source 2 and
validates `false`. -/
theorem quorum_semantics_app :
    (ValidatePromoCode exTok exEnv exV (strChars "HAPPYHRS")).result = true ∧
    ¬ ((ValidatePromoCode exTok exEnv exV (strChars "ONLYHERE1")).result = true) :=
  ⟨(quorum_semantics exTok exEnv exV (strChars "HAPPYHRS") (by decide)
      (by decide) (by decide) (fun l h => Option.noConfusion h)).mpr (by decide),
   fun hr => absurd ((quorum_semantics exTok exEnv exV (strChars "ONLYHERE1")
      (by decide) (by decide) (by decide)
      (fun l h => Option.noConfusion h)).mp hr)
     (by decide)⟩

/-- C3: a candidate whose trimmed form is shorter than `MinLen`, longer
than `MaxLen`, or not ASCII-alphanumeric is rejected with `false`, with no
source opened and no cache consultation (the cache is left untouched). -/
theorem structural_reject (isTok : Char → Bool) (env : Sources) (v : PV)
    (code : GoStr)
    (h : (byteLen (trimSpace code) : Int) < v.cfg.MinLen ∨
         (byteLen (trimSpace code) : Int) > v.cfg.MaxLen ∨
         isAlnum (trimSpace code) = false) :
    (ValidatePromoCode isTok env v code).result = false ∧
    (ValidatePromoCode isTok env v code).accessed = [] ∧
    (ValidatePromoCode isTok env v code).cacheHit = false ∧
    (ValidatePromoCode isTok env v code).st.lru = v.lru := by
  have hsf : structFail v.cfg (trimSpace code) = true := by
    unfold structFail
    rcases h with h | h | h <;> simp [h]
  rw [validate_structFail isTok env v code hsf]
  exact ⟨rfl, rfl, rfl, load_lru v⟩

/-- Concrete run of `structural_reject`: the too-short code `AB` and the
non-alphanumeric code `HAPPY-HRS` are rejected without source access. -/
theorem structural_reject_app :
    ((ValidatePromoCode exTok exEnv exV (strChars "AB")).result = false ∧
     (ValidatePromoCode exTok exEnv exV (strChars "AB")).accessed = []) ∧
    ((ValidatePromoCode exTok exEnv exV (strChars "HAPPY-HRS")).result = false ∧
     (ValidatePromoCode exTok exEnv exV (strChars "HAPPY-HRS")).accessed = []) :=
  ⟨⟨(structural_reject exTok exEnv exV (strChars "AB") (Or.inl (by decide))).1,
    (structural_reject exTok exEnv exV (strChars "AB") (Or.inl (by decide))).2.1⟩,
   ⟨(structural_reject exTok exEnv exV (strChars "HAPPY-HRS")
      (Or.inr (Or.inr (by decide)))).1,
    (structural_reject exTok exEnv exV (strChars "HAPPY-HRS")
      (Or.inr (Or.inr (by decide)))).2.1⟩⟩

/-- C4: a token matches the candidate iff it is byte-for-byte equal (which
subsumes equal length) — case-sensitive, with no substring matching; a
source holding the token `HAPPYHRS` reports `HAPPYHRS` and not `happyhrs`,
and the line `randomHAPPYHRStext` does not report `HAPPYHRS`. -/
theorem exact_token_match :
    (∀ w code : GoStr, tokenMatches w code = true ↔ w = code) ∧
    (∀ (isTok : Char → Bool) (env : Sources) (path : String) (code : GoStr),
      foundInFile isTok env path code = true ↔
        ∃ lines, env path = some lines ∧
          ∃ line ∈ scannedLines lines, ∃ w ∈ lineTokens isTok line, w = code) ∧
    foundInFile exTok exEnv "data/f1" (strChars "HAPPYHRS") = true ∧
    foundInFile exTok exEnv "data/f1" (strChars "happyhrs") = false ∧
    foundInFile exTok exEnvSub "f" (strChars "HAPPYHRS") = false := by
  refine ⟨tokenMatches_iff, ?_, by decide, by decide, by decide⟩
  intro isTok env path code
  unfold foundInFile foundInFileE
  cases henv : env path with
  | none => simp
  | some lines =>
    simp only [List.any_eq_true, Option.some.injEq]
    constructor
    · rintro ⟨line, hline, w, hw, hm⟩
      exact ⟨lines, rfl, line, hline, w, hw, (tokenMatches_iff w code).mp hm⟩
    · rintro ⟨lines2, hl2, line, hline, w, hw, hm⟩
      cases hl2
      exact ⟨line, hline, w, hw, (tokenMatches_iff w code).mpr hm⟩

/-- C5: source failures are absorbed — `foundInFile` never returns an
error, a missing/unreadable/corrupt source is a plain non-hit, and deleting
a source does not change the verdict of any code that is still satisfied by
the remaining sources. -/
theorem source_tolerance :
    (∀ (isTok : Char → Bool) (env : Sources) (path : String) (code : GoStr),
      (foundInFileE isTok env path code).2 = none) ∧
    (∀ (isTok : Char → Bool) (env : Sources) (path : String) (code : GoStr),
      env path = none → foundInFile isTok env path code = false) ∧
    (∀ (isTok : Char → Bool) (env : Sources) (v : PV) (code : GoStr)
      (q : String),
      pureVerdict isTok (removeSource env q) v.cfg (trimSpace code) = true →
      (ValidatePromoCode isTok env v code).result =
        (ValidatePromoCode isTok (removeSource env q) v code).result) := by
  refine ⟨?_, ?_, ?_⟩
  · intro isTok env path code
    unfold foundInFileE
    cases env path <;> rfl
  · intro isTok env path code h
    exact foundInFile_none isTok env path code h
  · intro isTok env v code q hrem
    have hpure : pureVerdict isTok env v.cfg (trimSpace code) = true := by
      unfold pureVerdict at hrem ⊢
      simp only [decide_eq_true_eq] at hrem ⊢
      have := hitCount_remove_le isTok env q v.cfg (trimSpace code)
      omega
    cases hsf : structFail v.cfg (trimSpace code) with
    | true =>
      rw [validate_structFail isTok env v code hsf,
        validate_structFail isTok (removeSource env q) v code hsf]
    | false =>
      cases hl : v.lru with
      | none =>
        rw [validate_nolru isTok env v code hsf hl,
          validate_nolru isTok (removeSource env q) v code hsf hl,
          scanAndStore_result, scanAndStore_result, load_cfg, hpure, hrem]
      | some l =>
        cases hgv : (l.get (trimSpace code)).1 with
        | some val =>
          have hg : l.get (trimSpace code) =
              (some val, (l.get (trimSpace code)).2) := by rw [← hgv]
          rw [validate_hit isTok env v code l (l.get (trimSpace code)).2 val
              hsf hl hg,
            validate_hit isTok (removeSource env q) v code l
              (l.get (trimSpace code)).2 val hsf hl hg]
        | none =>
          have hg : l.get (trimSpace code) =
              (none, (l.get (trimSpace code)).2) := by rw [← hgv]
          rw [validate_miss isTok env v code l (l.get (trimSpace code)).2
              hsf hl hg,
            validate_miss isTok (removeSource env q) v code l
              (l.get (trimSpace code)).2 hsf hl hg,
            scanAndStore_result, scanAndStore_result]
          show pureVerdict isTok env (LoadCouponFiles v).2.cfg (trimSpace code) =
            pureVerdict isTok (removeSource env q) (LoadCouponFiles v).2.cfg
              (trimSpace code)
          rw [load_cfg, hpure, hrem]

lemma scanAndStore_st_nolru (isTok : Char → Bool) (env : Sources) (v : PV)
    (code : GoStr) (hl : v.lru = none) :
    (scanAndStore isTok env v code).st = v := by
  simp only [scanAndStore]
  rw [hl]

lemma scanAndStore_st_lru (isTok : Char → Bool) (env : Sources) (v : PV)
    (code : GoStr) (l : LRU) (hl : v.lru = some l) :
    (scanAndStore isTok env v code).st =
      { v with lru := some (l.add code (pureVerdict isTok env v.cfg code)) } := by
  simp only [scanAndStore]
  rw [hl]
  dsimp only
  have h := scanFiles_ge isTok env code v.cfg.RequiredHits
    (v.cfg.Files.map (joinPath v.cfg.Dir)) 0 false (by intro h; cases h)
  simp only [Nat.cast_zero, zero_add] at h
  have hdec : decide (((scanFiles isTok env code v.cfg.RequiredHits
      (v.cfg.Files.map (joinPath v.cfg.Dir)) 0 false).1 : Int) ≥
        wrap32 v.cfg.RequiredHits) = pureVerdict isTok env v.cfg code := by
    unfold pureVerdict hitCount
    exact decide_eq_decide.mpr h
  rw [hdec]

lemma scanAndStore_accessed (isTok : Char → Bool) (env : Sources) (v : PV)
    (code : GoStr) :
    (scanAndStore isTok env v code).accessed =
      (scanFiles isTok env code v.cfg.RequiredHits
        (v.cfg.Files.map (joinPath v.cfg.Dir)) 0 false).2 := by
  unfold scanAndStore
  cases v.lru <;> rfl

lemma validate_st_cfg (isTok : Char → Bool) (env : Sources) (v : PV)
    (code : GoStr) :
    (ValidatePromoCode isTok env v code).st.cfg = v.cfg := by
  cases hsf : structFail v.cfg (trimSpace code) with
  | true => rw [validate_structFail isTok env v code hsf]; exact load_cfg v
  | false =>
    cases hl : v.lru with
    | none =>
      rw [validate_nolru isTok env v code hsf hl,
        scanAndStore_st_nolru isTok env _ (trimSpace code)
          (by rw [load_lru]; exact hl)]
      exact load_cfg v
    | some l =>
      cases hgv : (l.get (trimSpace code)).1 with
      | some val =>
        have hg : l.get (trimSpace code) =
            (some val, (l.get (trimSpace code)).2) := by rw [← hgv]
        rw [validate_hit isTok env v code l _ val hsf hl hg]
        exact load_cfg v
      | none =>
        have hg : l.get (trimSpace code) =
            (none, (l.get (trimSpace code)).2) := by rw [← hgv]
        rw [validate_miss isTok env v code l _ hsf hl hg,
          scanAndStore_st_lru isTok env
            { (LoadCouponFiles v).2 with lru := some (l.get (trimSpace code)).2 }
            (trimSpace code) ((l.get (trimSpace code)).2) rfl]
        exact load_cfg v

lemma validate_st_lru_cached (isTok : Char → Bool) (env : Sources) (v : PV)
    (code : GoStr) (l : LRU) (hl : v.lru = some l) (hmax : 1 ≤ l.max)
    (hsf : structFail v.cfg (trimSpace code) = false) :
    ∃ l2, (ValidatePromoCode isTok env v code).st.lru = some l2 ∧
      (l2.get (trimSpace code)).1 =
        some ((ValidatePromoCode isTok env v code).result) := by
  cases hgv : (l.get (trimSpace code)).1 with
  | some val =>
    have hg : l.get (trimSpace code) =
        (some val, (l.get (trimSpace code)).2) := by rw [← hgv]
    rw [validate_hit isTok env v code l _ val hsf hl hg]
    exact ⟨(l.get (trimSpace code)).2, rfl,
      LRU.get_get l (trimSpace code) val hgv⟩
  | none =>
    have hg : l.get (trimSpace code) =
        (none, (l.get (trimSpace code)).2) := by rw [← hgv]
    rw [validate_miss isTok env v code l _ hsf hl hg,
      scanAndStore_st_lru isTok env
        { (LoadCouponFiles v).2 with lru := some (l.get (trimSpace code)).2 }
        (trimSpace code) ((l.get (trimSpace code)).2) rfl, scanAndStore_result]
    refine ⟨_, rfl, ?_⟩
    exact LRU.get_of_add ((l.get (trimSpace code)).2) (trimSpace code) _
      (by rw [LRU.get_max]; exact hmax)

/-- C6: with the sources unchanged, a repeated `ValidatePromoCode` call on
the same code returns the same boolean; when caching is enabled (the
validator holds an LRU, necessarily of capacity at least 1), the second
call opens no source and answers from the cache whenever the code passes
the structural check. -/
theorem validate_idempotent (isTok : Char → Bool) (env : Sources) (v : PV)
    (code : GoStr) (hcap : ∀ l, v.lru = some l → 1 ≤ l.max) :
    ((ValidatePromoCode isTok env
        (ValidatePromoCode isTok env v code).st code).result =
      (ValidatePromoCode isTok env v code).result) ∧
    (∀ l, v.lru = some l →
      (ValidatePromoCode isTok env
        (ValidatePromoCode isTok env v code).st code).accessed = []) ∧
    (∀ l, v.lru = some l → structFail v.cfg (trimSpace code) = false →
      (ValidatePromoCode isTok env
        (ValidatePromoCode isTok env v code).st code).cacheHit = true) := by
  cases hsf : structFail v.cfg (trimSpace code) with
  | true =>
    have hsf1 : structFail (ValidatePromoCode isTok env v code).st.cfg
        (trimSpace code) = true := by
      rw [validate_st_cfg]; exact hsf
    have e2 := validate_structFail isTok env _ code hsf1
    have e1 := validate_structFail isTok env v code hsf
    refine ⟨?_, ?_, ?_⟩
    · rw [e2, e1]
    · intro l hlx; rw [e2]
    · intro l hlx hsf'; cases hsf'
  | false =>
    have hsf1 : structFail (ValidatePromoCode isTok env v code).st.cfg
        (trimSpace code) = false := by
      rw [validate_st_cfg]; exact hsf
    cases hl : v.lru with
    | none =>
      have hstl : (ValidatePromoCode isTok env v code).st.lru = none := by
        rw [validate_nolru isTok env v code hsf hl,
          scanAndStore_st_nolru isTok env _ (trimSpace code)
            (by rw [load_lru]; exact hl), load_lru]
        exact hl
      have e2 := validate_nolru isTok env _ code hsf1 hstl
      refine ⟨?_, ?_, ?_⟩
      · rw [e2, validate_nolru isTok env v code hsf hl]
        simp only [scanAndStore_result, load_cfg]
        rw [scanAndStore_st_nolru isTok env ((LoadCouponFiles v).2)
          (trimSpace code) (by rw [load_lru]; exact hl), load_cfg]
      · intro l hlx; cases hlx
      · intro l hlx; cases hlx
    | some l =>
      have hmax := hcap l hl
      obtain ⟨l2, hstl, hget⟩ :=
        validate_st_lru_cached isTok env v code l hl hmax hsf
      have hg2 : l2.get (trimSpace code) =
          (some (ValidatePromoCode isTok env v code).result,
            (l2.get (trimSpace code)).2) := by rw [← hget]
      have e2 := validate_hit isTok env _ code l2 (l2.get (trimSpace code)).2
        _ hsf1 hstl hg2
      refine ⟨?_, ?_, ?_⟩
      · rw [e2]
      · intro _ _; rw [e2]
      · intro _ _ _; rw [e2]

/-- Concrete run of `validate_idempotent` with the capacity-1 cache: the
repeated call agrees with the first, opens no source, and is a cache hit. -/
theorem validate_idempotent_app :
    ((ValidatePromoCode exTok exEnv
        (ValidatePromoCode exTok exEnv exVCached (strChars "HAPPYHRS")).st
        (strChars "HAPPYHRS")).result =
      (ValidatePromoCode exTok exEnv exVCached (strChars "HAPPYHRS")).result) ∧
    (ValidatePromoCode exTok exEnv
        (ValidatePromoCode exTok exEnv exVCached (strChars "HAPPYHRS")).st
        (strChars "HAPPYHRS")).accessed = [] ∧
    (ValidatePromoCode exTok exEnv
        (ValidatePromoCode exTok exEnv exVCached (strChars "HAPPYHRS")).st
        (strChars "HAPPYHRS")).cacheHit = true :=
  have h := validate_idempotent exTok exEnv exVCached (strChars "HAPPYHRS")
    (fun l hl => by
      injection hl with h2
      rw [← h2]
      decide)
  ⟨h.1, h.2.1 (NewLRU 1) rfl, h.2.2 (NewLRU 1) rfl (by decide)⟩

/-- Concrete run of `source_tolerance`: a path carrying no source is a
plain non-hit with a `nil` error, and deleting source 3 of `exEnvAll`
(where `HAPPYHRS` occurs in all three sources, quorum 2) leaves the
verdict unchanged. -/
theorem source_tolerance_app :
    (foundInFileE exTok exEnvAll "data/f9" (strChars "HAPPYHRS")).2 = none ∧
    foundInFile exTok exEnvAll "data/f9" (strChars "HAPPYHRS") = false ∧
    (ValidatePromoCode exTok exEnvAll exV (strChars "HAPPYHRS")).result =
      (ValidatePromoCode exTok (removeSource exEnvAll "data/f3") exV
        (strChars "HAPPYHRS")).result :=
  ⟨source_tolerance.1 exTok exEnvAll "data/f9" (strChars "HAPPYHRS"),
   source_tolerance.2.1 exTok exEnvAll "data/f9" (strChars "HAPPYHRS")
     (by decide),
   source_tolerance.2.2 exTok exEnvAll exV (strChars "HAPPYHRS") "data/f3"
     (by decide)⟩

/-- C2 counterexample: with the invalid configuration `exCfgBad`
(`RequiredHits = 0`), the config check fails, yet `ValidatePromoCode "A"`
attempts to open the configured source (accessing `d/f`) and returns
`true`, not `false`: the orchestrator ignores the recorded config error. -/
theorem config_error_ignored_cex :
    configCheck exCfgBad = some ConfigError.badRequiredHits ∧
    (ValidatePromoCode exTok emptySources exVBad (strChars "A")).result = true ∧
    (ValidatePromoCode exTok emptySources exVBad (strChars "A")).accessed =
      ["d/f"] := by
  refine ⟨by decide, by decide, by decide⟩

/-- C2 amended: the config-check outcome is recorded on first use and
returned unchanged (never re-attempted) by every later `LoadCouponFiles`
call; `ValidatePromoCode`, however, ignores that outcome — it still touches
no source when no files are configured or when the structural pre-check
rejects the code (returning `false` in the latter case), but other invalid
configurations do not stop it from scanning (see the counterexample). -/
theorem config_error_sticky (v : PV) (hinit : v.init = none) :
    (LoadCouponFiles v = (configCheck v.cfg,
      { v with init := some (configCheck v.cfg) })) ∧
    (∀ w : PV, w.init = some (configCheck v.cfg) →
      LoadCouponFiles w = (configCheck v.cfg, w)) ∧
    (∀ (isTok : Char → Bool) (env : Sources) (code : GoStr),
      v.cfg.Files = [] →
      (ValidatePromoCode isTok env v code).accessed = []) ∧
    (∀ (isTok : Char → Bool) (env : Sources) (code : GoStr),
      structFail v.cfg (trimSpace code) = true →
      (ValidatePromoCode isTok env v code).result = false ∧
      (ValidatePromoCode isTok env v code).accessed = []) := by
  refine ⟨load_first v hinit, fun w hw => load_again w _ hw, ?_, ?_⟩
  · intro isTok env code hfiles
    cases hsf : structFail v.cfg (trimSpace code) with
    | true => rw [validate_structFail isTok env v code hsf]
    | false =>
      cases hl : v.lru with
      | none =>
        rw [validate_nolru isTok env v code hsf hl, scanAndStore_accessed,
          load_cfg, hfiles]
        rfl
      | some l =>
        cases hgv : (l.get (trimSpace code)).1 with
        | some val =>
          have hg : l.get (trimSpace code) =
              (some val, (l.get (trimSpace code)).2) := by rw [← hgv]
          rw [validate_hit isTok env v code l _ val hsf hl hg]
        | none =>
          have hg : l.get (trimSpace code) =
              (none, (l.get (trimSpace code)).2) := by rw [← hgv]
          rw [validate_miss isTok env v code l _ hsf hl hg,
            scanAndStore_accessed]
          show (scanFiles isTok env (trimSpace code)
            ((LoadCouponFiles v).2.cfg.RequiredHits)
            ((LoadCouponFiles v).2.cfg.Files.map
              (joinPath (LoadCouponFiles v).2.cfg.Dir)) 0 false).2 = []
          rw [load_cfg, hfiles]
          rfl
  · intro isTok env code hsf
    rw [validate_structFail isTok env v code hsf]
    exact ⟨rfl, rfl⟩

/-- Concrete run of `config_error_sticky` on the invalid `exCfgBad`: the
first `LoadCouponFiles` records and returns the error, and a structurally
rejected code still yields `false` without source access. -/
theorem config_error_sticky_app :
    (LoadCouponFiles exVBad = (configCheck exVBad.cfg,
      { exVBad with init := some (configCheck exVBad.cfg) })) ∧
    (ValidatePromoCode exTok emptySources exVBad (strChars "XYZ")).result =
      false ∧
    (ValidatePromoCode exTok emptySources exVBad (strChars "XYZ")).accessed =
      [] :=
  ⟨(config_error_sticky exVBad rfl).1,
   ((config_error_sticky exVBad rfl).2.2.2 exTok emptySources
      (strChars "XYZ") (by decide)).1,
   ((config_error_sticky exVBad rfl).2.2.2 exTok emptySources
      (strChars "XYZ") (by decide)).2⟩

/-- C7 counterexample: `NewLRU 0` is not a no-op cache — after one `Add`,
`Get` returns a hit, because the constructor clamps a capacity request
below 1 up to 1. -/
theorem cache_noop_cex :
    (((NewLRU 0).add (strChars "AA") true).get (strChars "AA")).1 =
      some true := by decide

/-- C7 amended: `NewLRU` clamps a requested capacity at most 0 up to 1, so
such a cache is a working capacity-1 LRU rather than a no-op; the validator
disables caching only for a negative `CacheSize` (no LRU at all) and builds
an LRU for a positive one; and any two validators over the same
configuration whose caches agree with the scan verdicts (in particular a
cache-less one and any positive-capacity one) return identical verdicts for
every code. -/
theorem cache_noop_amended :
    (∀ m : Int, m ≤ 0 → (NewLRU m).max = 1) ∧
    (∀ cfg : Config, cfg.CacheSize < 0 →
      (NewValidatorService cfg).lru = none) ∧
    (∀ cfg : Config, 0 < cfg.CacheSize →
      (NewValidatorService cfg).lru = some (NewLRU cfg.CacheSize)) ∧
    (∀ (isTok : Char → Bool) (env : Sources) (v1 v2 : PV) (code : GoStr),
      v1.cfg = v2.cfg → coherent isTok env v1 → coherent isTok env v2 →
      (ValidatePromoCode isTok env v1 code).result =
        (ValidatePromoCode isTok env v2 code).result) := by
  refine ⟨?_, ?_, ?_, ?_⟩
  · intro m hm
    simp only [NewLRU]
    rw [if_pos (by omega)]
    rfl
  · intro cfg h
    have h0 : (cfg.CacheSize == 0) = false := by
      simp only [beq_eq_false_iff_ne]
      omega
    simp only [NewValidatorService, h0, Bool.false_eq_true, if_false]
    rw [if_neg (by omega)]
  · intro cfg h
    have h0 : (cfg.CacheSize == 0) = false := by
      simp only [beq_eq_false_iff_ne]
      omega
    simp only [NewValidatorService, h0, Bool.false_eq_true, if_false]
    rw [if_pos (by omega)]
  · intro isTok env v1 v2 code hcfg hc1 hc2
    rw [validate_result_pure isTok env v1 code hc1,
      validate_result_pure isTok env v2 code hc2, hcfg]

/-- Concrete run of `cache_noop_amended`: the cache-less validator `exV`
and the empty capacity-1-cache validator `exVCached` agree on `HAPPYHRS`
(both scan the same sources), and the negative `CacheSize` of `exCfg`
indeed disables the cache. -/
theorem cache_noop_amended_app :
    (ValidatePromoCode exTok exEnv exV (strChars "HAPPYHRS")).result =
      (ValidatePromoCode exTok exEnv
        { exVCached with cfg := exCfg } (strChars "HAPPYHRS")).result ∧
    (NewValidatorService exCfg).lru = none ∧
    (NewLRU (-3)).max = 1 :=
  ⟨cache_noop_amended.2.2.2 exTok exEnv exV { exVCached with cfg := exCfg }
      (strChars "HAPPYHRS") rfl
      (fun l hl => Option.noConfusion hl)
      (fun l hl => by
        injection hl with h2
        rw [← h2]
        intro e he
        simp [NewLRU] at he),
   cache_noop_amended.2.1 exCfg (by decide),
   cache_noop_amended.1 (-3) (by decide)⟩

/-- C9: a candidate whose trimmed form contains any character outside the
ASCII ranges A–Z, a–z, 0–9 (including a non-ASCII Unicode letter) is
rejected with `false` and no source access — even though the Unicode-aware
tokenizer would extract exactly that string as a token from a source line
consisting of it (so the scanner would report a hit that the orchestrator
never asks for). -/
theorem nonascii_reject (isTok : Char → Bool) (env : Sources) (v : PV)
    (code : GoStr) (c : Char) (hc : c ∈ trimSpace code)
    (hca : isAlnumChar c = false) :
    (ValidatePromoCode isTok env v code).result = false ∧
    (ValidatePromoCode isTok env v code).accessed = [] ∧
    (∀ path, env path = some [trimSpace code] → trimSpace code ≠ [] →
      (∀ d, d ∈ trimSpace code → isTok d = true) →
      byteLen (trimSpace code) ≤ maxLine →
      foundInFile isTok env path (trimSpace code) = true) := by
  have halnum : isAlnum (trimSpace code) = false := by
    unfold isAlnum
    rw [List.all_eq_false]
    exact ⟨c, hc, by simp [hca]⟩
  have hsf : structFail v.cfg (trimSpace code) = true := by
    unfold structFail
    simp [halnum]
  rw [validate_structFail isTok env v code hsf]
  refine ⟨rfl, rfl, ?_⟩
  intro path hpath hne hall hlen
  unfold foundInFile foundInFileE
  rw [hpath]
  dsimp only
  have hscan : scannedLines [trimSpace code] = [trimSpace code] := by
    unfold scannedLines
    simp [List.takeWhile, hlen]
  rw [hscan]
  simp only [List.any_cons, List.any_nil, Bool.or_false]
  have htok : lineTokens isTok (trimSpace code) = [trimSpace code] := by
    unfold lineTokens
    exact fieldsFunc_keep _ _ hne (fun d hd => by simp [hall d hd])
  rw [htok]
  simp only [List.any_cons, List.any_nil, Bool.or_false]
  simp [tokenMatches]

/-- Concrete run of `nonascii_reject`: `CAFÉCODES` (9 runes, 10 bytes, with
the non-ASCII letter `É`) is rejected without any source access, yet the
tokenizer extended with `É` extracts it whole from a source and reports a
hit. -/
theorem nonascii_reject_app :
    (ValidatePromoCode exTokU exEnvU exV (strChars "CAFÉCODES")).result =
      false ∧
    (ValidatePromoCode exTokU exEnvU exV (strChars "CAFÉCODES")).accessed =
      [] ∧
    foundInFile exTokU exEnvU "f" (trimSpace (strChars "CAFÉCODES")) = true :=
  have h := nonascii_reject exTokU exEnvU exV (strChars "CAFÉCODES") 'É'
    (by decide) (by decide)
  ⟨h.1, h.2.1,
   h.2.2 "f" (by decide) (by decide) (by decide) (by decide)⟩

end OrderFoodOnline
